import Mathlib

/-!
Verification of the structural type-relation engine of the stc TypeScript
checker: the union-flattening engine (analyzer/assign/unions.rs) and the
castability engine (analyzer/expr/type_cast.rs), shallowly embedded.

External collaborators (normalizer, expander, assignability engine, extends
relation) are modelled as oracle fields of an Analyzer structure, with the
same fallibility as their Rust signatures. Spans and metadata are inert for
every property considered here and are omitted from the type model.
Call-stack recursion is modelled with an explicit fuel parameter; fuel
exhaustion stands for the stack overflow an unbounded recursion would be in
the Rust code and is reported as a distinguished error.
-/

namespace Stc

/-- Keyword (primitive) type markers, per the data model. -/
inductive Kwd where
  | any | null | undefined | boolean | number | string | bigint
deriving DecidableEq, Repr

/-- Literal type payloads: a single concrete value of primitive kind. -/
inductive Lit where
  | num (n : Int)
  | str (s : String)
  | bool (b : Bool)
  | bigint (n : Int)
deriving DecidableEq, Repr

mutual
/-- The type tree, embedding stc_ts_types::Type restricted to the shapes this
core inspects. Spans and metadata are omitted (inert for these properties). -/
inductive Ty where
  | keyword (k : Kwd)
  | lit (l : Lit)
  | union (ts : List Ty)
  | intersection (ts : List Ty)
  | tuple (elems : List TupleElem)
  | typeLit (members : List TypeElement)
  | array (elemType : Ty)
  | interface (name : String)
  | cls (name : String)
  | fn
  | ref (name : String)

/-- A tuple element: optional label plus component type (span omitted). -/
inductive TupleElem where
  | mk (label : Option String) (ty : Ty)

/-- A TypeLit member: Property with optional annotation, IndexSignature,
Method or Call, mirroring stc_ts_types::TypeElement. -/
inductive TypeElement where
  | property (name : String) (optional : Bool) (typeAnn : Option Ty)
  | index (params : Ty) (typeAnn : Option Ty)
  | method (name : String)
  | call
end

/-- Component type of a tuple element. -/
def TupleElem.ty : TupleElem → Ty
  | .mk _ t => t

/-- Label of a tuple element. -/
def TupleElem.label : TupleElem → Option String
  | .mk l _ => l

mutual
/-- Decidable structural equality on the type tree. This embeds the TypeEq
relation of the source, which compares structure and ignores spans; since the
model carries no spans, it is plain structural equality. -/
def tyBEq : Ty → Ty → Bool
  | .keyword k, .keyword k' => k == k'
  | .lit l, .lit l' => l == l'
  | .union ts, .union ts' => tyListBEq ts ts'
  | .intersection ts, .intersection ts' => tyListBEq ts ts'
  | .tuple es, .tuple es' => tupleElemListBEq es es'
  | .typeLit ms, .typeLit ms' => typeElementListBEq ms ms'
  | .array t, .array t' => tyBEq t t'
  | .interface n, .interface n' => n == n'
  | .cls n, .cls n' => n == n'
  | .fn, .fn => true
  | .ref n, .ref n' => n == n'
  | _, _ => false
termination_by structural a => a

def tyListBEq : List Ty → List Ty → Bool
  | [], [] => true
  | t :: ts, t' :: ts' => tyBEq t t' && tyListBEq ts ts'
  | _, _ => false
termination_by structural a => a

def tupleElemBEq : TupleElem → TupleElem → Bool
  | .mk l t, .mk l' t' => l == l' && tyBEq t t'
termination_by structural a => a

def tupleElemListBEq : List TupleElem → List TupleElem → Bool
  | [], [] => true
  | e :: es, e' :: es' => tupleElemBEq e e' && tupleElemListBEq es es'
  | _, _ => false
termination_by structural a => a

def typeElementBEq : TypeElement → TypeElement → Bool
  | .property n o a, .property n' o' a' =>
      n == n' && o == o' && tyOptBEq a a'
  | .index p a, .index p' a' => tyBEq p p' && tyOptBEq a a'
  | .method n, .method n' => n == n'
  | .call, .call => true
  | _, _ => false
termination_by structural a => a

def tyOptBEq : Option Ty → Option Ty → Bool
  | none, none => true
  | some t, some t' => tyBEq t t'
  | _, _ => false
termination_by structural a => a

def typeElementListBEq : List TypeElement → List TypeElement → Bool
  | [], [] => true
  | m :: ms, m' :: ms' => typeElementBEq m m' && typeElementListBEq ms ms'
  | _, _ => false
termination_by structural a => a
end

/-- The typeEq query used pervasively by the source (TypeEq trait). -/
def typeEq (a b : Ty) : Bool := tyBEq a b

/-- Errors of the engine. simpleAssignFailed embeds
Error::SimpleAssignFailed, the shape-mismatch precondition failure of the
union flattening engine; invalidTupleCast and nonOverlappingTypeCast embed
the two cast diagnostics; external tags an error produced by an external
collaborator; stackOverflow models exhaustion of call-stack fuel. -/
inductive Err where
  | simpleAssignFailed
  | invalidTupleCast
  | nonOverlappingTypeCast
  | external (code : Nat)
  | stackOverflow
deriving DecidableEq, Repr

/-- Outcome channel for code that can abort by Rust panic in addition to
returning a Result error: panic models an uncaught index-out-of-bounds. -/
inductive Fault where
  | panic
  | error (e : Err)
deriving DecidableEq, Repr

/-- Options threaded to the general assignability engine. Field names follow
AssignOpts in the source (only the fields this core sets). -/
structure AssignOpts where
  forCastablity : Bool
  disallowDifferentClasses : Bool
  allowAssignmentToParamConstraint : Bool
  disallowSpecialAssignmentToEmptyClass : Bool
deriving DecidableEq, Repr

/-- Default AssignOpts (all flags cleared), as Default::default() produces. -/
def AssignOpts.dflt : AssignOpts := ⟨false, false, false, false⟩

/-- CastableOpts from type_cast.rs. -/
structure CastableOpts where
  disallowDifferentClasses : Bool
  allowAssignmentToParamConstraint : Bool
  disallowSpecialAssignmentToEmptyClass : Bool
deriving DecidableEq, Repr

/-- Default CastableOpts. -/
def CastableOpts.dflt : CastableOpts := ⟨false, false, false⟩

/-- The analyzer state: the external collaborators of the core, modelled as
oracles with the fallibility of their Rust signatures. normalize and expand
resolve wrappers, expandTopRef expands a Ref one level, assign is the
general assignability engine (assign and assign_with_opts), extendsRel is
the nominal extends query, canBeCastedToNumberInRhs is the numeric
right-hand-side compatibility check, makeInstanceType and simplify are the
asserted-type preprocessing steps of validate_type_cast. -/
structure Analyzer where
  normalize : Ty → Except Err Ty
  expand : Ty → Except Err Ty
  expandTopRef : Ty → Except Err Ty
  assign : AssignOpts → Ty → Ty → Except Err Unit
  extendsRel : Ty → Ty → Option Bool
  canBeCastedToNumberInRhs : Ty → Bool
  makeInstanceType : Ty → Ty
  simplify : Ty → Ty

/-- Shape predicate: is this a Union (Type::is_union_type after normalize). -/
def Ty.isUnionType : Ty → Bool
  | .union _ => true
  | _ => false

/-- Shape predicate: is this a Tuple. -/
def Ty.isTupleType : Ty → Bool
  | .tuple _ => true
  | _ => false

/-- Shape predicate for a given keyword (Type::is_kwd). -/
def Ty.isKwd (k : Kwd) : Ty → Bool
  | .keyword k' => k == k'
  | _ => false

/-- Shape predicate: the any keyword (Type::is_any). -/
def Ty.isAny (t : Ty) : Bool := t.isKwd .any

/-- Shape predicate: a function type (Type::is_fn_type). -/
def Ty.isFnType : Ty → Bool
  | .fn => true
  | _ => false

/-- Shape predicate: a TypeLit (Type::is_type_lit). -/
def Ty.isTypeLit : Ty → Bool
  | .typeLit _ => true
  | _ => false

/-- Shape predicate: a class (Type::is_class). -/
def Ty.isClass : Ty → Bool
  | .cls _ => true
  | _ => false

/-- Shape predicate: an interface (Type::is_interface). -/
def Ty.isInterface : Ty → Bool
  | .interface _ => true
  | _ => false

/-- Shape predicate: a Ref (matched by Type::Ref patterns). -/
def Ty.isRef : Ty → Bool
  | .ref _ => true
  | _ => false

/-- Modelled from the spec: Type::is_num is not under src; per the spec a
numeric type is the number keyword or a number literal. -/
def Ty.isNum : Ty → Bool
  | .keyword .number => true
  | .lit (.num _) => true
  | _ => false

/-- Modelled from the spec: Type::is_str is not under src; per the spec the
legacy carve-out compares casted against exactly the string keyword. -/
def Ty.isStr : Ty → Bool
  | .keyword .string => true
  | _ => false

mutual
/-- Modelled from the spec: util::is_str_or_union is not under src; per the
spec it holds of a string-like type, that is the string keyword, a string
literal, or a union composed only of strings. -/
def isStrOrUnion : Ty → Bool
  | .keyword .string => true
  | .lit (.str _) => true
  | .union ts => tyListAllStr ts
  | _ => false
termination_by structural t => t

/-- Auxiliary conjunction over union members for isStrOrUnion. -/
def tyListAllStr : List Ty → Bool
  | [] => true
  | t :: ts => isStrOrUnion t && tyListAllStr ts
termination_by structural l => l
end

/-- Modelled from the spec: the Fix operation (the fixed() call of
stc_ts_type_ops) is not under src; per the spec it flattens a Union one
level after construction: members that are themselves Unions are spliced. -/
def fixedTy : Ty → Ty
  | .union ts =>
      .union (ts.foldr (fun t acc =>
        (match t with
         | .union ts' => ts'
         | t => [t]) ++ acc) [])
  | t => t

/-- Embeds expand_union_for_assignment: normalize the component type; the
boolean keyword expands to the union of the true and false literals, a union
yields its member list, anything else (or a normalize failure, which the
source discards with ok()?) yields none. -/
def expandUnionForAssignment (st : Analyzer) (t : Ty) : Option (List Ty) :=
  match st.normalize t with
  | .error _ => none
  | .ok t' =>
    match t' with
    | .keyword .boolean => some [.lit (.bool true), .lit (.bool false)]
    | .union ts => some ts
    | _ => none

/-- The k rebuilt tuple elements for a union-typed element, one per branch of
the expansion, each carrying the original label (TupleElement rebuilt with
ty replaced, as in append_tuple_element_to_type). -/
def tupleExpansion (st : Analyzer) (el : TupleElem) : Option (List TupleElem) :=
  (expandUnionForAssignment st el.ty).map (fun ts => ts.map (fun t => .mk el.label t))

/-- Embeds append_tuple_element_to_type. With an expansion of k branches the
accumulator is cloned k times, branch i is appended into copy i, and the
accumulator becomes the Union of the copies (with no flattening). Without an
expansion, a Union accumulator distributes the append into every branch, a
Tuple accumulator pushes the element, and any other shape is the
SimpleAssignFailed precondition violation. Fuel models recursion depth. -/
def appendTupleElementToType (st : Analyzer) : Nat → Ty → TupleElem → Except Err Ty
  | 0, _, _ => .error .stackOverflow
  | fuel + 1, acc, el =>
    match tupleExpansion st el with
    | some els =>
        (els.mapM (fun e => appendTupleElementToType st fuel acc e)).map
          (fun copies => .union copies)
    | none =>
      match acc with
      | .union ts =>
          (ts.mapM (fun t => appendTupleElementToType st fuel t el)).map
            (fun ts' => .union ts')
      | .tuple elems => .ok (.tuple (elems ++ [el]))
      | _ => .error .simpleAssignFailed
termination_by structural fuel => fuel

/-- The k rebuilt members for a Property member whose annotation expands to a
union, one PropertySignature per branch (append_type_element_to_type only
distributes Property members carrying an annotation). -/
def propExpansion (st : Analyzer) (el : TypeElement) : Option (List TypeElement) :=
  match el with
  | .property name opt (some elTy) =>
      (expandUnionForAssignment st elTy).map
        (fun ts => ts.map (fun t => .property name opt (some t)))
  | _ => none

/-- Embeds append_type_element_to_type: like the tuple version, but only
Property members with an annotation are distributed, and the constructed
Union is flattened one level by fixed(). -/
def appendTypeElementToType (st : Analyzer) : Nat → Ty → TypeElement → Except Err Ty
  | 0, _, _ => .error .stackOverflow
  | fuel + 1, acc, el =>
    match propExpansion st el with
    | some els =>
        (els.mapM (fun e => appendTypeElementToType st fuel acc e)).map
          (fun copies => fixedTy (.union copies))
    | none =>
      match acc with
      | .union ts =>
          (ts.mapM (fun t => appendTypeElementToType st fuel t el)).map
            (fun ts' => .union ts')
      | .typeLit ms => .ok (.typeLit (ms ++ [el]))
      | _ => .error .simpleAssignFailed
termination_by structural fuel => fuel

/-- Embeds flatten_unions_for_assignment: normalize, then fold the matching
append over the elements of a Tuple or the members of a TypeLit, starting
from an empty accumulator of the same shape; other shapes pass through. -/
def flattenUnionsForAssignment (st : Analyzer) (fuel : Nat) (ty : Ty) : Except Err Ty :=
  match st.normalize ty with
  | .error e => .error e
  | .ok t =>
    match t with
    | .tuple elems =>
        elems.foldlM (fun acc el => appendTupleElementToType st fuel acc el) (.tuple [])
    | .typeLit ms =>
        ms.foldlM (fun acc el => appendTypeElementToType st fuel acc el) (.typeLit [])
    | other => .ok other

/-- Embeds assign_to_union: flatten the candidate; if the flattened result is
itself a union, delegate the comparison to the assignability engine and
return its verdict; if it is not a union, or if flattening failed, return
none (not applicable). -/
def assignToUnion (st : Analyzer) (fuel : Nat) (opts : AssignOpts) (l r : Ty) :
    Option (Except Err Unit) :=
  match flattenUnionsForAssignment st fuel r with
  | .ok r' => if r'.isUnionType then some (st.assign opts l r') else none
  | .error _ => none

/-- Short-circuit disjunction in the Except monad: the shape of
castable(a)? or-else castable(b)? in the source loops. -/
def orE (a b : Except Err Bool) : Except Err Bool :=
  match a with
  | .error e => .error e
  | .ok true => .ok true
  | .ok false => b

/-- Fold orE over a list of deferred queries, the shape of the member loops
in castable (return true on the first member accepted, propagate the first
error, false when the list is exhausted). -/
def anyE (l : List (Except Err Bool)) : Except Err Bool :=
  l.foldr orE (.ok false)

/-- The literal-to-keyword widening table of castable: number literal to
number keyword, string to string, boolean to boolean, bigint to bigint. -/
def litToKeywordOk : Ty → Ty → Bool
  | .lit (.num _), .keyword .number => true
  | .lit (.str _), .keyword .string => true
  | .lit (.bool _), .keyword .boolean => true
  | .lit (.bigint _), .keyword .bigint => true
  | _, _ => false

/-- The literal-to-literal veto of castable: two number, two string, or two
bigint literals (necessarily of different value, since structural equality
was already tested) are not castable. Boolean literal pairs are absent from
the source pattern and fall through. -/
def litLitVeto : Ty → Ty → Bool
  | .lit (.num _), .lit (.num _) => true
  | .lit (.str _), .lit (.str _) => true
  | .lit (.bigint _), .lit (.bigint _) => true
  | _, _ => false

/-- The index-signature veto for TypeLit versus TypeLit: some pair of Index
members with structurally equal parameters and annotations that are mutually
non-assignable in either direction. -/
def indexVeto (st : Analyzer) (lms rms : List TypeElement) : Bool :=
  lms.any (fun lm =>
    rms.any (fun rm =>
      match lm, rm with
      | .index lp (some lt), .index rp (some rt) =>
          typeEq lp rp
            && (st.assign AssignOpts.dflt lt rt).isOk = false
            && (st.assign AssignOpts.dflt rt lt).isOk = false
      | _, _ => false))

/-- AssignOpts built by the castable fallback: for_castablity plus the three
CastableOpts flags. -/
def castOptsToAssignOpts (opts : CastableOpts) : AssignOpts :=
  ⟨true, opts.disallowDifferentClasses, opts.allowAssignmentToParamConstraint,
    opts.disallowSpecialAssignmentToEmptyClass⟩

/-- Embeds castable from type_cast.rs: the ordered rule table. Trivial
acceptance for any, null, undefined and structural equality; the literal
widening table; the literal-to-literal veto; function to the interface named
Function; two function types are not castable; a Ref on either side is
expanded first (from before to); the TypeLit index-signature veto, else any
two TypeLits are castable; a Union from is castable iff some member is; a
Union or Intersection to accepts iff some member does; a numeric from
consults the numeric right-hand-side check; a class cannot be cast to an
interface or TypeLit; finally the general assignability engine in
for-castability mode decides, an assign failure yielding false. -/
def castable (st : Analyzer) (opts : CastableOpts) : Nat → Ty → Ty → Except Err Bool
  | 0, _, _ => .error .stackOverflow
  | fuel + 1, frm, toTy =>
    if frm.isAny || frm.isKwd .null || frm.isKwd .undefined then .ok true
    else if typeEq frm toTy then .ok true
    else if litToKeywordOk frm toTy then .ok true
    else if litLitVeto frm toTy then .ok false
    else if frm.isFnType && (match toTy with
      | .interface name => name == "Function"
      | _ => false) then .ok true
    else if frm.isFnType && toTy.isFnType then .ok false
    else
      match frm, toTy with
      | .ref _, _ =>
          match st.expandTopRef frm with
          | .error e => .error e
          | .ok frm' => castable st opts fuel frm' toTy
      | _, .ref _ =>
          match st.expandTopRef toTy with
          | .error e => .error e
          | .ok to' => castable st opts fuel frm to'
      | .typeLit lms, .typeLit rms =>
          if indexVeto st lms rms then .ok false else .ok true
      | _, _ =>
        match frm with
        | .union ls => anyE (ls.map (fun l => castable st opts fuel l toTy))
        | _ =>
          match toTy with
          | .union ts => anyE (ts.map (fun t => castable st opts fuel frm t))
          | .intersection ts => anyE (ts.map (fun t => castable st opts fuel frm t))
          | _ =>
            if frm.isNum && st.canBeCastedToNumberInRhs toTy then .ok true
            else if frm.isClass && (toTy.isInterface || toTy.isTypeLit) then .ok false
            else if (st.assign (castOptsToAssignOpts opts) frm toTy).isOk then .ok true
            else .ok false
termination_by structural fuel => fuel

/-- Embeds has_overlap: structural equality, else castable(l, r)? or
castable(r, l)? with short-circuit. -/
def hasOverlap (st : Analyzer) (opts : CastableOpts) (fuel : Nat) (l r : Ty) :
    Except Err Bool :=
  if typeEq l r then .ok true
  else
    match castable st opts fuel l r with
    | .error e => .error e
    | .ok true => .ok true
    | .ok false => castable st opts fuel r l

/-- The terminal accept-path section of validate_type_cast_inner: accept if
orig extends casted or casted extends orig; otherwise ask castable with
default options, converting a false verdict and also any hard castable error
into the soft NonOverlappingTypeCast diagnostic (convert_err). -/
def innerFinal (st : Analyzer) (fuel : Nat) (orig casted : Ty) : Except Fault Unit :=
  if st.extendsRel orig casted = some true then .ok ()
  else if st.extendsRel casted orig = some true then .ok ()
  else
    match castable st CastableOpts.dflt fuel orig casted with
    | .ok true => .ok ()
    | .ok false => .error (.error .nonOverlappingTypeCast)
    | .error _ => .error (.error .nonOverlappingTypeCast)

/-- The elementwise tuple loop of validate_type_cast_inner: scan the
per-position recursive results in order; the first soft failure clears
all_castable and breaks, a panic in a recursive call unwinds, and an
exhausted list means every position passed. -/
def firstFail : List (Except Fault Unit) → Except Fault Bool
  | [] => .ok true
  | .ok () :: rest => firstFail rest
  | .error .panic :: _ => .error .panic
  | .error (.error _) :: _ => .ok false

/-- Embeds validate_type_cast_inner: the ordered accept-path list. The
string carve-out; a Union orig containing a member structurally equal to
casted; Tuple versus Tuple with the arity guard (unequal arity aborts with
InvalidTupleCast) and the same-direction elementwise recursion, a failed
element falling through to the terminal section; Array casted versus Tuple
orig comparing the first tuple element (an empty orig tuple panics on the
rt.elems[0] index); then the terminal extends-or-castable section. -/
def validateTypeCastInner (st : Analyzer) : Nat → Ty → Ty → Except Fault Unit
  | 0, _, _ => .error (.error .stackOverflow)
  | fuel + 1, orig, casted =>
    if isStrOrUnion orig && casted.isStr then .ok ()
    else if (match orig with
      | .union ts => ts.any (fun v => typeEq casted v)
      | _ => false) then .ok ()
    else
      match casted, orig with
      | .tuple lts, .tuple rts =>
          if lts.length ≠ rts.length then .error (.error .invalidTupleCast)
          else
            match firstFail ((lts.zip rts).map
                (fun p => validateTypeCastInner st fuel p.2.ty p.1.ty)) with
            | .ok true => .ok ()
            | .ok false => innerFinal st fuel orig casted
            | .error f => .error f
      | .array lt, .tuple rts =>
          match rts with
          | [] => .error .panic
          | r0 :: _ =>
              if typeEq r0.ty lt then .ok ()
              else innerFinal st fuel orig casted
      | _, _ => innerFinal st fuel orig casted
termination_by structural fuel => fuel

/-- Embeds validate_type_cast: fully expand the original type (a failure
propagates), preprocess the asserted type with make_instance_type and
simplify (the prevent flags touch only metadata and are identity here), run
the inner check, report its soft failure through the sink (returned here as
the optional diagnostic), and produce the processed asserted type as the
static type of the expression. -/
def validateTypeCast (st : Analyzer) (fuel : Nat) (origTy castedTy : Ty) :
    Except Fault (Ty × Option Err) :=
  match st.expand origTy with
  | .error e => .error (.error e)
  | .ok orig =>
    let casted := st.simplify (st.makeInstanceType castedTy)
    match validateTypeCastInner st fuel orig casted with
    | .ok () => .ok (casted, none)
    | .error (.error e) => .ok (casted, some e)
    | .error .panic => .error .panic

/-- A benign analyzer instance: normalization and expansion are the
identity, assignment accepts everything, the extends relation is unknown
everywhere, and the numeric check declines. Used to evaluate the engine on
already-concrete types. -/
def stId : Analyzer where
  normalize := .ok
  expand := .ok
  expandTopRef := .ok
  assign := fun _ _ _ => .ok ()
  extendsRel := fun _ _ => none
  canBeCastedToNumberInRhs := fun _ => false
  makeInstanceType := id
  simplify := id


set_option maxHeartbeats 1600000 in
mutual
/-- Structural equality is reflexive. -/
theorem tyBEq_refl : ∀ a : Ty, tyBEq a a = true
  | .keyword _ => by simp only [tyBEq, beq_self_eq_true]
  | .lit _ => by simp only [tyBEq, beq_self_eq_true]
  | .union ts => by simp only [tyBEq]; exact tyListBEq_refl ts
  | .intersection ts => by simp only [tyBEq]; exact tyListBEq_refl ts
  | .tuple es => by simp only [tyBEq]; exact tupleElemListBEq_refl es
  | .typeLit ms => by simp only [tyBEq]; exact typeElementListBEq_refl ms
  | .array t => by simp only [tyBEq]; exact tyBEq_refl t
  | .interface _ => by simp only [tyBEq, beq_self_eq_true]
  | .cls _ => by simp only [tyBEq, beq_self_eq_true]
  | .fn => rfl
  | .ref _ => by simp only [tyBEq, beq_self_eq_true]
termination_by structural a => a

theorem tyListBEq_refl : ∀ l : List Ty, tyListBEq l l = true
  | [] => rfl
  | t :: ts => by
      simp only [tyListBEq, Bool.and_eq_true]
      exact ⟨tyBEq_refl t, tyListBEq_refl ts⟩
termination_by structural l => l

theorem tupleElemBEq_refl : ∀ e : TupleElem, tupleElemBEq e e = true
  | .mk _ t => by
      simp only [tupleElemBEq, Bool.and_eq_true]
      exact ⟨by simp, tyBEq_refl t⟩
termination_by structural e => e

theorem tupleElemListBEq_refl : ∀ l : List TupleElem, tupleElemListBEq l l = true
  | [] => rfl
  | e :: es => by
      simp only [tupleElemListBEq, Bool.and_eq_true]
      exact ⟨tupleElemBEq_refl e, tupleElemListBEq_refl es⟩
termination_by structural l => l

theorem typeElementBEq_refl : ∀ m : TypeElement, typeElementBEq m m = true
  | .property _ _ a => by
      simp only [typeElementBEq, Bool.and_eq_true]
      exact ⟨⟨by simp, by simp⟩, tyOptBEq_refl a⟩
  | .index p a => by
      simp only [typeElementBEq, Bool.and_eq_true]
      exact ⟨tyBEq_refl p, tyOptBEq_refl a⟩
  | .method _ => by simp only [typeElementBEq, beq_self_eq_true]
  | .call => rfl
termination_by structural m => m

theorem tyOptBEq_refl : ∀ a : Option Ty, tyOptBEq a a = true
  | none => rfl
  | some t => tyBEq_refl t
termination_by structural a => a

theorem typeElementListBEq_refl : ∀ l : List TypeElement, typeElementListBEq l l = true
  | [] => rfl
  | m :: ms => by
      simp only [typeElementListBEq, Bool.and_eq_true]
      exact ⟨typeElementBEq_refl m, typeElementListBEq_refl ms⟩
termination_by structural l => l
end

set_option maxHeartbeats 1600000 in
mutual
/-- Structural equality is sound: it identifies only equal trees. -/
theorem tyBEq_eq : ∀ a b : Ty, tyBEq a b = true → a = b
  | .keyword _, .keyword _ => fun h => by
      simp only [tyBEq, beq_iff_eq] at h; rw [h]
  | .lit _, .lit _ => fun h => by
      simp only [tyBEq, beq_iff_eq] at h; rw [h]
  | .union ts, .union ts' => fun h => by
      simp only [tyBEq] at h; rw [tyListBEq_eq ts ts' h]
  | .intersection ts, .intersection ts' => fun h => by
      simp only [tyBEq] at h; rw [tyListBEq_eq ts ts' h]
  | .tuple es, .tuple es' => fun h => by
      simp only [tyBEq] at h; rw [tupleElemListBEq_eq es es' h]
  | .typeLit ms, .typeLit ms' => fun h => by
      simp only [tyBEq] at h; rw [typeElementListBEq_eq ms ms' h]
  | .array t, .array t' => fun h => by
      simp only [tyBEq] at h; rw [tyBEq_eq t t' h]
  | .interface _, .interface _ => fun h => by
      simp only [tyBEq, beq_iff_eq] at h; rw [h]
  | .cls _, .cls _ => fun h => by
      simp only [tyBEq, beq_iff_eq] at h; rw [h]
  | .fn, .fn => fun _ => rfl
  | .ref _, .ref _ => fun h => by
      simp only [tyBEq, beq_iff_eq] at h; rw [h]
  | .keyword _, .lit _ => fun h => by simp only [tyBEq] at h; exact Bool.noConfusion h
  | .keyword _, .union _ => fun h => by simp only [tyBEq] at h; exact Bool.noConfusion h
  | .keyword _, .intersection _ => fun h => by simp only [tyBEq] at h; exact Bool.noConfusion h
  | .keyword _, .tuple _ => fun h => by simp only [tyBEq] at h; exact Bool.noConfusion h
  | .keyword _, .typeLit _ => fun h => by simp only [tyBEq] at h; exact Bool.noConfusion h
  | .keyword _, .array _ => fun h => by simp only [tyBEq] at h; exact Bool.noConfusion h
  | .keyword _, .interface _ => fun h => by simp only [tyBEq] at h; exact Bool.noConfusion h
  | .keyword _, .cls _ => fun h => by simp only [tyBEq] at h; exact Bool.noConfusion h
  | .keyword _, .fn => fun h => by simp only [tyBEq] at h; exact Bool.noConfusion h
  | .keyword _, .ref _ => fun h => by simp only [tyBEq] at h; exact Bool.noConfusion h
  | .lit _, .keyword _ => fun h => by simp only [tyBEq] at h; exact Bool.noConfusion h
  | .lit _, .union _ => fun h => by simp only [tyBEq] at h; exact Bool.noConfusion h
  | .lit _, .intersection _ => fun h => by simp only [tyBEq] at h; exact Bool.noConfusion h
  | .lit _, .tuple _ => fun h => by simp only [tyBEq] at h; exact Bool.noConfusion h
  | .lit _, .typeLit _ => fun h => by simp only [tyBEq] at h; exact Bool.noConfusion h
  | .lit _, .array _ => fun h => by simp only [tyBEq] at h; exact Bool.noConfusion h
  | .lit _, .interface _ => fun h => by simp only [tyBEq] at h; exact Bool.noConfusion h
  | .lit _, .cls _ => fun h => by simp only [tyBEq] at h; exact Bool.noConfusion h
  | .lit _, .fn => fun h => by simp only [tyBEq] at h; exact Bool.noConfusion h
  | .lit _, .ref _ => fun h => by simp only [tyBEq] at h; exact Bool.noConfusion h
  | .union _, .keyword _ => fun h => by simp only [tyBEq] at h; exact Bool.noConfusion h
  | .union _, .lit _ => fun h => by simp only [tyBEq] at h; exact Bool.noConfusion h
  | .union _, .intersection _ => fun h => by simp only [tyBEq] at h; exact Bool.noConfusion h
  | .union _, .tuple _ => fun h => by simp only [tyBEq] at h; exact Bool.noConfusion h
  | .union _, .typeLit _ => fun h => by simp only [tyBEq] at h; exact Bool.noConfusion h
  | .union _, .array _ => fun h => by simp only [tyBEq] at h; exact Bool.noConfusion h
  | .union _, .interface _ => fun h => by simp only [tyBEq] at h; exact Bool.noConfusion h
  | .union _, .cls _ => fun h => by simp only [tyBEq] at h; exact Bool.noConfusion h
  | .union _, .fn => fun h => by simp only [tyBEq] at h; exact Bool.noConfusion h
  | .union _, .ref _ => fun h => by simp only [tyBEq] at h; exact Bool.noConfusion h
  | .intersection _, .keyword _ => fun h => by simp only [tyBEq] at h; exact Bool.noConfusion h
  | .intersection _, .lit _ => fun h => by simp only [tyBEq] at h; exact Bool.noConfusion h
  | .intersection _, .union _ => fun h => by simp only [tyBEq] at h; exact Bool.noConfusion h
  | .intersection _, .tuple _ => fun h => by simp only [tyBEq] at h; exact Bool.noConfusion h
  | .intersection _, .typeLit _ => fun h => by simp only [tyBEq] at h; exact Bool.noConfusion h
  | .intersection _, .array _ => fun h => by simp only [tyBEq] at h; exact Bool.noConfusion h
  | .intersection _, .interface _ => fun h => by simp only [tyBEq] at h; exact Bool.noConfusion h
  | .intersection _, .cls _ => fun h => by simp only [tyBEq] at h; exact Bool.noConfusion h
  | .intersection _, .fn => fun h => by simp only [tyBEq] at h; exact Bool.noConfusion h
  | .intersection _, .ref _ => fun h => by simp only [tyBEq] at h; exact Bool.noConfusion h
  | .tuple _, .keyword _ => fun h => by simp only [tyBEq] at h; exact Bool.noConfusion h
  | .tuple _, .lit _ => fun h => by simp only [tyBEq] at h; exact Bool.noConfusion h
  | .tuple _, .union _ => fun h => by simp only [tyBEq] at h; exact Bool.noConfusion h
  | .tuple _, .intersection _ => fun h => by simp only [tyBEq] at h; exact Bool.noConfusion h
  | .tuple _, .typeLit _ => fun h => by simp only [tyBEq] at h; exact Bool.noConfusion h
  | .tuple _, .array _ => fun h => by simp only [tyBEq] at h; exact Bool.noConfusion h
  | .tuple _, .interface _ => fun h => by simp only [tyBEq] at h; exact Bool.noConfusion h
  | .tuple _, .cls _ => fun h => by simp only [tyBEq] at h; exact Bool.noConfusion h
  | .tuple _, .fn => fun h => by simp only [tyBEq] at h; exact Bool.noConfusion h
  | .tuple _, .ref _ => fun h => by simp only [tyBEq] at h; exact Bool.noConfusion h
  | .typeLit _, .keyword _ => fun h => by simp only [tyBEq] at h; exact Bool.noConfusion h
  | .typeLit _, .lit _ => fun h => by simp only [tyBEq] at h; exact Bool.noConfusion h
  | .typeLit _, .union _ => fun h => by simp only [tyBEq] at h; exact Bool.noConfusion h
  | .typeLit _, .intersection _ => fun h => by simp only [tyBEq] at h; exact Bool.noConfusion h
  | .typeLit _, .tuple _ => fun h => by simp only [tyBEq] at h; exact Bool.noConfusion h
  | .typeLit _, .array _ => fun h => by simp only [tyBEq] at h; exact Bool.noConfusion h
  | .typeLit _, .interface _ => fun h => by simp only [tyBEq] at h; exact Bool.noConfusion h
  | .typeLit _, .cls _ => fun h => by simp only [tyBEq] at h; exact Bool.noConfusion h
  | .typeLit _, .fn => fun h => by simp only [tyBEq] at h; exact Bool.noConfusion h
  | .typeLit _, .ref _ => fun h => by simp only [tyBEq] at h; exact Bool.noConfusion h
  | .array _, .keyword _ => fun h => by simp only [tyBEq] at h; exact Bool.noConfusion h
  | .array _, .lit _ => fun h => by simp only [tyBEq] at h; exact Bool.noConfusion h
  | .array _, .union _ => fun h => by simp only [tyBEq] at h; exact Bool.noConfusion h
  | .array _, .intersection _ => fun h => by simp only [tyBEq] at h; exact Bool.noConfusion h
  | .array _, .tuple _ => fun h => by simp only [tyBEq] at h; exact Bool.noConfusion h
  | .array _, .typeLit _ => fun h => by simp only [tyBEq] at h; exact Bool.noConfusion h
  | .array _, .interface _ => fun h => by simp only [tyBEq] at h; exact Bool.noConfusion h
  | .array _, .cls _ => fun h => by simp only [tyBEq] at h; exact Bool.noConfusion h
  | .array _, .fn => fun h => by simp only [tyBEq] at h; exact Bool.noConfusion h
  | .array _, .ref _ => fun h => by simp only [tyBEq] at h; exact Bool.noConfusion h
  | .interface _, .keyword _ => fun h => by simp only [tyBEq] at h; exact Bool.noConfusion h
  | .interface _, .lit _ => fun h => by simp only [tyBEq] at h; exact Bool.noConfusion h
  | .interface _, .union _ => fun h => by simp only [tyBEq] at h; exact Bool.noConfusion h
  | .interface _, .intersection _ => fun h => by simp only [tyBEq] at h; exact Bool.noConfusion h
  | .interface _, .tuple _ => fun h => by simp only [tyBEq] at h; exact Bool.noConfusion h
  | .interface _, .typeLit _ => fun h => by simp only [tyBEq] at h; exact Bool.noConfusion h
  | .interface _, .array _ => fun h => by simp only [tyBEq] at h; exact Bool.noConfusion h
  | .interface _, .cls _ => fun h => by simp only [tyBEq] at h; exact Bool.noConfusion h
  | .interface _, .fn => fun h => by simp only [tyBEq] at h; exact Bool.noConfusion h
  | .interface _, .ref _ => fun h => by simp only [tyBEq] at h; exact Bool.noConfusion h
  | .cls _, .keyword _ => fun h => by simp only [tyBEq] at h; exact Bool.noConfusion h
  | .cls _, .lit _ => fun h => by simp only [tyBEq] at h; exact Bool.noConfusion h
  | .cls _, .union _ => fun h => by simp only [tyBEq] at h; exact Bool.noConfusion h
  | .cls _, .intersection _ => fun h => by simp only [tyBEq] at h; exact Bool.noConfusion h
  | .cls _, .tuple _ => fun h => by simp only [tyBEq] at h; exact Bool.noConfusion h
  | .cls _, .typeLit _ => fun h => by simp only [tyBEq] at h; exact Bool.noConfusion h
  | .cls _, .array _ => fun h => by simp only [tyBEq] at h; exact Bool.noConfusion h
  | .cls _, .interface _ => fun h => by simp only [tyBEq] at h; exact Bool.noConfusion h
  | .cls _, .fn => fun h => by simp only [tyBEq] at h; exact Bool.noConfusion h
  | .cls _, .ref _ => fun h => by simp only [tyBEq] at h; exact Bool.noConfusion h
  | .fn, .keyword _ => fun h => by simp only [tyBEq] at h; exact Bool.noConfusion h
  | .fn, .lit _ => fun h => by simp only [tyBEq] at h; exact Bool.noConfusion h
  | .fn, .union _ => fun h => by simp only [tyBEq] at h; exact Bool.noConfusion h
  | .fn, .intersection _ => fun h => by simp only [tyBEq] at h; exact Bool.noConfusion h
  | .fn, .tuple _ => fun h => by simp only [tyBEq] at h; exact Bool.noConfusion h
  | .fn, .typeLit _ => fun h => by simp only [tyBEq] at h; exact Bool.noConfusion h
  | .fn, .array _ => fun h => by simp only [tyBEq] at h; exact Bool.noConfusion h
  | .fn, .interface _ => fun h => by simp only [tyBEq] at h; exact Bool.noConfusion h
  | .fn, .cls _ => fun h => by simp only [tyBEq] at h; exact Bool.noConfusion h
  | .fn, .ref _ => fun h => by simp only [tyBEq] at h; exact Bool.noConfusion h
  | .ref _, .keyword _ => fun h => by simp only [tyBEq] at h; exact Bool.noConfusion h
  | .ref _, .lit _ => fun h => by simp only [tyBEq] at h; exact Bool.noConfusion h
  | .ref _, .union _ => fun h => by simp only [tyBEq] at h; exact Bool.noConfusion h
  | .ref _, .intersection _ => fun h => by simp only [tyBEq] at h; exact Bool.noConfusion h
  | .ref _, .tuple _ => fun h => by simp only [tyBEq] at h; exact Bool.noConfusion h
  | .ref _, .typeLit _ => fun h => by simp only [tyBEq] at h; exact Bool.noConfusion h
  | .ref _, .array _ => fun h => by simp only [tyBEq] at h; exact Bool.noConfusion h
  | .ref _, .interface _ => fun h => by simp only [tyBEq] at h; exact Bool.noConfusion h
  | .ref _, .cls _ => fun h => by simp only [tyBEq] at h; exact Bool.noConfusion h
  | .ref _, .fn => fun h => by simp only [tyBEq] at h; exact Bool.noConfusion h
termination_by structural a => a

theorem tyListBEq_eq : ∀ l l' : List Ty, tyListBEq l l' = true → l = l'
  | [], [] => fun _ => rfl
  | t :: ts, t' :: ts' => fun h => by
      simp only [tyListBEq, Bool.and_eq_true] at h
      rw [tyBEq_eq t t' h.1, tyListBEq_eq ts ts' h.2]
  | [], _ :: _ => fun h => by simp only [tyListBEq] at h; exact Bool.noConfusion h
  | _ :: _, [] => fun h => by simp only [tyListBEq] at h; exact Bool.noConfusion h
termination_by structural l => l

theorem tupleElemBEq_eq : ∀ e e' : TupleElem, tupleElemBEq e e' = true → e = e'
  | .mk _ t, .mk _ t' => fun h => by
      simp only [tupleElemBEq, Bool.and_eq_true, beq_iff_eq] at h
      rw [h.1, tyBEq_eq t t' h.2]
termination_by structural e => e

theorem tupleElemListBEq_eq :
    ∀ l l' : List TupleElem, tupleElemListBEq l l' = true → l = l'
  | [], [] => fun _ => rfl
  | e :: es, e' :: es' => fun h => by
      simp only [tupleElemListBEq, Bool.and_eq_true] at h
      rw [tupleElemBEq_eq e e' h.1, tupleElemListBEq_eq es es' h.2]
  | [], _ :: _ => fun h => by simp only [tupleElemListBEq] at h; exact Bool.noConfusion h
  | _ :: _, [] => fun h => by simp only [tupleElemListBEq] at h; exact Bool.noConfusion h
termination_by structural l => l

theorem typeElementBEq_eq : ∀ m m' : TypeElement, typeElementBEq m m' = true → m = m'
  | .property _ _ a, .property _ _ a' => fun h => by
      simp only [typeElementBEq, Bool.and_eq_true, beq_iff_eq] at h
      rw [h.1.1, h.1.2, tyOptBEq_eq a a' h.2]
  | .index p a, .index p' a' => fun h => by
      simp only [typeElementBEq, Bool.and_eq_true] at h
      rw [tyBEq_eq p p' h.1, tyOptBEq_eq a a' h.2]
  | .method _, .method _ => fun h => by
      simp only [typeElementBEq, beq_iff_eq] at h; rw [h]
  | .call, .call => fun _ => rfl
  | .property _ _ _, .index _ _ => fun h => by simp only [typeElementBEq] at h; exact Bool.noConfusion h
  | .property _ _ _, .method _ => fun h => by simp only [typeElementBEq] at h; exact Bool.noConfusion h
  | .property _ _ _, .call => fun h => by simp only [typeElementBEq] at h; exact Bool.noConfusion h
  | .index _ _, .property _ _ _ => fun h => by simp only [typeElementBEq] at h; exact Bool.noConfusion h
  | .index _ _, .method _ => fun h => by simp only [typeElementBEq] at h; exact Bool.noConfusion h
  | .index _ _, .call => fun h => by simp only [typeElementBEq] at h; exact Bool.noConfusion h
  | .method _, .property _ _ _ => fun h => by simp only [typeElementBEq] at h; exact Bool.noConfusion h
  | .method _, .index _ _ => fun h => by simp only [typeElementBEq] at h; exact Bool.noConfusion h
  | .method _, .call => fun h => by simp only [typeElementBEq] at h; exact Bool.noConfusion h
  | .call, .property _ _ _ => fun h => by simp only [typeElementBEq] at h; exact Bool.noConfusion h
  | .call, .index _ _ => fun h => by simp only [typeElementBEq] at h; exact Bool.noConfusion h
  | .call, .method _ => fun h => by simp only [typeElementBEq] at h; exact Bool.noConfusion h
termination_by structural m => m

theorem tyOptBEq_eq : ∀ a a' : Option Ty, tyOptBEq a a' = true → a = a'
  | none, none => fun _ => rfl
  | some t, some t' => fun h => by rw [tyBEq_eq t t' h]
  | none, some _ => fun h => by simp only [tyOptBEq] at h; exact Bool.noConfusion h
  | some _, none => fun h => by simp only [tyOptBEq] at h; exact Bool.noConfusion h
termination_by structural a => a

theorem typeElementListBEq_eq :
    ∀ l l' : List TypeElement, typeElementListBEq l l' = true → l = l'
  | [], [] => fun _ => rfl
  | m :: ms, m' :: ms' => fun h => by
      simp only [typeElementListBEq, Bool.and_eq_true] at h
      rw [typeElementBEq_eq m m' h.1, typeElementListBEq_eq ms ms' h.2]
  | [], _ :: _ => fun h => by simp only [typeElementListBEq] at h; exact Bool.noConfusion h
  | _ :: _, [] => fun h => by simp only [typeElementListBEq] at h; exact Bool.noConfusion h
termination_by structural l => l
end

/-- typeEq is reflexive. -/
theorem typeEq_refl (a : Ty) : typeEq a a = true := tyBEq_refl a

/-- typeEq identifies only equal trees. -/
theorem typeEq_eq {a b : Ty} (h : typeEq a b = true) : a = b := tyBEq_eq a b h

/-- A false typeEq verdict separates the two trees. -/
theorem ne_of_typeEq_false {a b : Ty} (h : typeEq a b = false) : a ≠ b := by
  intro hab
  rw [hab, typeEq_refl] at h
  exact Bool.noConfusion h

/-- typeEq is symmetric, as the TypeEq relation of the source is. -/
theorem typeEq_comm (a b : Ty) : typeEq a b = typeEq b a := by
  cases hab : typeEq a b with
  | true => rw [typeEq_eq hab, typeEq_refl]
  | false =>
      cases hba : typeEq b a with
      | true =>
          have hba' : a = b := (typeEq_eq hba).symm
          rw [hba', typeEq_refl] at hab
          exact Bool.noConfusion hab
      | false => rfl

/-- String literal type. -/
def litStr (s : String) : Ty := .lit (.str s)

/-- Number literal type. -/
def litNum (n : Int) : Ty := .lit (.num n)

/-- An unlabelled two-element tuple type. -/
def pairTup (x y : Ty) : Ty := .tuple [.mk none x, .mk none y]

/-- The member list of a Union holds no directly nested Union. -/
def topNoNested : Ty → Bool
  | .union ts => ts.all (fun m => !m.isUnionType)
  | _ => true

/-- Membership inversion for mapM over Except: every element of a successful
image list is the image of some source element. -/
theorem mapM_ok_mem {α β : Type} (f : α → Except Err β) :
    ∀ (l : List α) (l' : List β), l.mapM f = .ok l' → ∀ b ∈ l', ∃ a ∈ l, f a = .ok b := by
  intro l
  induction l with
  | nil =>
      intro l' h b hb
      simp only [List.mapM_nil, pure, Except.pure] at h
      cases h
      simp at hb
  | cons a as ih =>
      intro l' h b hb
      rw [List.mapM_cons] at h
      cases hfa : f a with
      | error e => rw [hfa] at h; simp [Bind.bind, Except.bind] at h
      | ok v =>
          rw [hfa] at h
          cases hms : as.mapM f with
          | error e =>
              rw [hms] at h; simp [Bind.bind, Except.bind] at h
          | ok vs =>
              rw [hms] at h
              simp only [Bind.bind, Except.bind, pure, Except.pure] at h
              cases h
              rcases List.mem_cons.mp hb with hb | hb
              · exact ⟨a, List.mem_cons_self a as, hb ▸ hfa⟩
              · rcases ih vs hms b hb with ⟨a', ha', hfa'⟩
                exact ⟨a', List.mem_cons_of_mem a ha', hfa'⟩

/-- A foldlM over Except preserves a Boolean invariant of the accumulator
when every step does. -/
theorem foldlM_pres {α : Type} (P : Ty → Bool) (step : Ty → α → Except Err Ty)
    (hstep : ∀ a e a', P a = true → step a e = .ok a' → P a' = true) :
    ∀ (l : List α) (acc res : Ty), P acc = true →
      (l.foldlM step acc : Except Err Ty) = .ok res → P res = true := by
  intro l
  induction l with
  | nil =>
      intro acc res hacc h
      simp only [List.foldlM_nil, pure, Except.pure] at h
      cases h
      exact hacc
  | cons e es ih =>
      intro acc res hacc h
      rw [List.foldlM_cons] at h
      cases hse : step acc e with
      | error err => rw [hse] at h; simp [Bind.bind, Except.bind] at h
      | ok acc' =>
          rw [hse] at h
          simp only [Bind.bind, Except.bind] at h
          exact ih acc' res (hstep acc e acc' hacc hse) h

/-- The fixture tuple with two union-typed elements: [("a"|"b"), (1|2)]. -/
def tupAB12 : Ty :=
  .tuple [.mk none (.union [litStr "a", litStr "b"]),
          .mk none (.union [litNum 1, litNum 2])]

/-- The fixture tuple with one union-typed element: [("a"|"b"), 1]. -/
def tupAB1 : Ty :=
  .tuple [.mk none (.union [litStr "a", litStr "b"]), .mk none (litNum 1)]

/-- What distributing tupAB12 actually produces: a nested union grouped by
the alternatives of the second element. -/
def c1Actual : Ty :=
  .union [.union [pairTup (litStr "a") (litNum 1), pairTup (litStr "b") (litNum 1)],
          .union [pairTup (litStr "a") (litNum 2), pairTup (litStr "b") (litNum 2)]]

/-- The flat union the claim asserts, ["a",1] | ["a",2] | ["b",1] | ["b",2]. -/
def c1Claimed : Ty :=
  .union [pairTup (litStr "a") (litNum 1), pairTup (litStr "a") (litNum 2),
          pairTup (litStr "b") (litNum 1), pairTup (litStr "b") (litNum 2)]

/-- C1 counterexample: distributing [("a"|"b"), (1|2)] does not yield the
flat four-branch union ["a",1] | ["a",2] | ["b",1] | ["b",2]; it yields the
nested union (["a",1] | ["b",1]) | (["a",2] | ["b",2]), so the claimed
result value is not produced. -/
theorem c1_counterexample :
    flattenUnionsForAssignment stId 10 tupAB12 = .ok c1Actual ∧
    flattenUnionsForAssignment stId 10 tupAB12 ≠ .ok c1Claimed := by
  refine ⟨rfl, ?_⟩
  intro h
  rw [show flattenUnionsForAssignment stId 10 tupAB12 = .ok c1Actual from rfl] at h
  have h2 : c1Actual = c1Claimed := by injection h
  exact ne_of_typeEq_false (show typeEq c1Actual c1Claimed = false from rfl) h2

/-- C1 amended: appending a tuple element whose type expands to k branches
turns the accumulator into the Union of the k recursively-extended copies in
branch order, without flattening, so each union-typed element wraps the
previous accumulator one level deeper: distributing [("a"|"b"), 1] yields
["a",1] | ["b",1], while distributing [("a"|"b"), (1|2)] yields the nested
union (["a",1] | ["b",1]) | (["a",2] | ["b",2]) whose flattened reading
order is ["a",1], ["b",1], ["a",2], ["b",2]. -/
theorem c1_theorem :
    (∀ (st : Analyzer) (fuel : Nat) (acc : Ty) (el : TupleElem) (els : List TupleElem),
        tupleExpansion st el = some els →
        appendTupleElementToType st (fuel + 1) acc el =
          (els.mapM (fun e => appendTupleElementToType st fuel acc e)).map
            (fun copies => Ty.union copies)) ∧
    flattenUnionsForAssignment stId 10 tupAB1 =
      .ok (.union [pairTup (litStr "a") (litNum 1), pairTup (litStr "b") (litNum 1)]) ∧
    flattenUnionsForAssignment stId 10 tupAB12 = .ok c1Actual := by
  refine ⟨?_, rfl, rfl⟩
  intro st fuel acc el els hx
  simp only [appendTupleElementToType, hx]

/-- C1 witness: the expansion step applied to a singleton union element. -/
theorem c1_theorem_witness :
    appendTupleElementToType stId 3 (.tuple []) (.mk none (.union [litStr "a"])) =
      (([TupleElem.mk none (litStr "a")].mapM
          (fun e => appendTupleElementToType stId 2 (.tuple []) e)).map
        (fun copies => Ty.union copies)) :=
  c1_theorem.1 stId 2 (.tuple []) (.mk none (.union [litStr "a"]))
    [TupleElem.mk none (litStr "a")] rfl

/-- Without an expansion, appending a member to a non-Union accumulator can
only push into a TypeLit, and the result stays a non-Union. -/
theorem appendTypeElement_noExp_not_union (st : Analyzer) (fuel : Nat) (acc : Ty)
    (el : TypeElement) (acc' : Ty) (hexp : propExpansion st el = none)
    (hacc : acc.isUnionType = false)
    (h : appendTypeElementToType st fuel acc el = .ok acc') :
    acc'.isUnionType = false := by
  cases fuel with
  | zero => simp [appendTypeElementToType] at h
  | succ n =>
      simp only [appendTypeElementToType, hexp] at h
      cases acc with
      | union ts => simp [Ty.isUnionType] at hacc
      | typeLit ms => dsimp only at h; cases h; rfl
      | keyword k => simp at h
      | lit l => simp at h
      | intersection ts => simp at h
      | tuple es => simp at h
      | array t => simp at h
      | interface n => simp at h
      | cls n => simp at h
      | fn => simp at h
      | ref n => simp at h

/-- Flattening one level of a Union whose members each satisfy topNoNested
produces a Union with no directly nested Union member. -/
theorem fixedTy_union_noNested :
    ∀ (copies : List Ty), (∀ c ∈ copies, topNoNested c = true) →
      topNoNested (fixedTy (.union copies)) = true := by
  intro copies h
  simp only [fixedTy, topNoNested, List.all_eq_true]
  induction copies with
  | nil => simp
  | cons c cs ih =>
      simp only [List.foldr_cons]
      intro m hm
      rw [List.mem_append] at hm
      rcases hm with hm | hm
      · have hc := h c (List.mem_cons_self c cs)
        cases c with
        | union ts' =>
            simp only [topNoNested, List.all_eq_true] at hc
            exact hc m hm
        | keyword k => simp at hm; subst hm; rfl
        | lit l => simp at hm; subst hm; rfl
        | intersection ts => simp at hm; subst hm; rfl
        | tuple es => simp at hm; subst hm; rfl
        | typeLit ms => simp at hm; subst hm; rfl
        | array t => simp at hm; subst hm; rfl
        | interface n => simp at hm; subst hm; rfl
        | cls n => simp at hm; subst hm; rfl
        | fn => simp at hm; subst hm; rfl
        | ref n => simp at hm; subst hm; rfl
      · exact ih (fun c' hc' => h c' (List.mem_cons_of_mem c hc')) m hm

/-- The append of a TypeLit member preserves the absence of directly nested
Unions in the accumulator: the constructed Union is flattened by fixed(). -/
theorem appendTypeElement_topNoNested (st : Analyzer) :
    ∀ (fuel : Nat) (acc : Ty) (el : TypeElement) (acc' : Ty),
      topNoNested acc = true →
      appendTypeElementToType st fuel acc el = .ok acc' →
      topNoNested acc' = true := by
  intro fuel
  induction fuel with
  | zero => intro acc el acc' _ h; simp [appendTypeElementToType] at h
  | succ n ih =>
      intro acc el acc' hacc h
      cases hexp : propExpansion st el with
      | some els =>
          simp only [appendTypeElementToType, hexp] at h
          cases hm : els.mapM (fun e => appendTypeElementToType st n acc e) with
          | error e => rw [hm] at h; simp [Except.map] at h
          | ok copies =>
              rw [hm] at h
              simp only [Except.map] at h
              cases h
              apply fixedTy_union_noNested
              intro c hc
              obtain ⟨e, _, hfe⟩ := mapM_ok_mem _ els copies hm c hc
              exact ih acc e c hacc hfe
      | none =>
          simp only [appendTypeElementToType, hexp] at h
          cases acc with
          | union ts =>
              dsimp only at h
              cases hm : ts.mapM (fun t => appendTypeElementToType st n t el) with
              | error e => rw [hm] at h; simp [Except.map] at h
              | ok ts' =>
                  rw [hm] at h
                  simp only [Except.map] at h
                  cases h
                  simp only [topNoNested, List.all_eq_true]
                  intro t' ht'
                  obtain ⟨t, ht, hft⟩ := mapM_ok_mem _ ts ts' hm t' ht'
                  have htnu : t.isUnionType = false := by
                    simp only [topNoNested, List.all_eq_true] at hacc
                    simpa using hacc t ht
                  have := appendTypeElement_noExp_not_union st n t el t' hexp htnu hft
                  simp [this]
          | typeLit ms => dsimp only at h; cases h; rfl
          | keyword k => simp at h
          | lit l => simp at h
          | intersection ts => simp at h
          | tuple es => simp at h
          | array t => simp at h
          | interface n => simp at h
          | cls n => simp at h
          | fn => simp at h
          | ref n => simp at h

/-- C2 counterexample: the tuple path constructs Unions without flattening,
so distributing [("a"|"b"), (1|2)] produces a Union whose two members are
themselves Unions, violating the claimed invariant. -/
theorem c2_counterexample :
    flattenUnionsForAssignment stId 10 tupAB12 = .ok c1Actual ∧
    topNoNested c1Actual = false := ⟨rfl, rfl⟩

/-- C2 amended: the invariant holds for the TypeLit path, whose every Union
construction is flattened one level by fixed(): appendTypeElement preserves
the absence of directly nested Unions, and flattening a TypeLit never yields
a Union with a directly nested Union member; the Tuple path omits the
flattening and violates the invariant. -/
theorem c2_theorem :
    (∀ (st : Analyzer) (fuel : Nat) (acc : Ty) (el : TypeElement) (acc' : Ty),
        topNoNested acc = true →
        appendTypeElementToType st fuel acc el = .ok acc' →
        topNoNested acc' = true) ∧
    (∀ (st : Analyzer) (fuel : Nat) (ty : Ty) (ms : List TypeElement) (res : Ty),
        st.normalize ty = .ok (.typeLit ms) →
        flattenUnionsForAssignment st fuel ty = .ok res →
        topNoNested res = true) := by
  refine ⟨fun st => appendTypeElement_topNoNested st, ?_⟩
  intro st fuel ty ms res hn h
  simp only [flattenUnionsForAssignment, hn] at h
  exact foldlM_pres topNoNested _
    (fun a e a' => appendTypeElement_topNoNested st fuel a e a') ms (.typeLit []) res rfl h

/-- C2 witness: distributing the TypeLit with one boolean property through
the TypeLit path yields a flat two-branch Union. -/
theorem c2_theorem_witness :
    topNoNested (.union [.typeLit [.property "b" false (some (.lit (.bool true)))],
                         .typeLit [.property "b" false (some (.lit (.bool false)))]]) = true :=
  c2_theorem.2 stId 10 (.typeLit [.property "b" false (some (.keyword .boolean))])
    [.property "b" false (some (.keyword .boolean))] _ rfl rfl

/-- An analyzer whose full expansion fails (an unresolvable original type). -/
def stExpandFail : Analyzer :=
  ⟨.ok, fun _ => .error (.external 0), .ok, fun _ _ _ => .ok (),
    fun _ _ => none, fun _ => false, id, id⟩

/-- C3 counterexample: when the full expansion of the original type fails,
validate_type_cast itself fails (the question mark on expand propagates), so
it does not return the asserted type for every pair of input types. -/
theorem c3_counterexample :
    validateTypeCast stExpandFail 10 (.keyword .number) (.keyword .string) =
      .error (.error (.external 0)) := rfl

/-- C3 amended: when the full expansion of the original type succeeds and
the inner check does not panic, validateTypeCast returns Ok with the
processed asserted type as the static type regardless of the inner verdict,
and the returned diagnostic is empty exactly when the inner check accepted;
an expansion failure, however, propagates as a failure of validateTypeCast
itself. -/
theorem c3_theorem :
    ∀ (st : Analyzer) (fuel : Nat) (origTy castedTy o : Ty),
      st.expand origTy = .ok o →
      validateTypeCastInner st fuel o (st.simplify (st.makeInstanceType castedTy)) ≠
        .error .panic →
      ∃ d, validateTypeCast st fuel origTy castedTy =
          .ok (st.simplify (st.makeInstanceType castedTy), d) ∧
        (d = none ↔
          validateTypeCastInner st fuel o (st.simplify (st.makeInstanceType castedTy)) =
            .ok ()) := by
  intro st fuel origTy castedTy o ho hnp
  simp only [validateTypeCast, ho]
  cases hi : validateTypeCastInner st fuel o (st.simplify (st.makeInstanceType castedTy)) with
  | ok u => cases u; exact ⟨none, rfl, by simp [hi]⟩
  | error f =>
      cases f with
      | panic => exact absurd hi hnp
      | error e => exact ⟨some e, rfl, by simp [hi]⟩

/-- C3 witness: a successful concrete cast returns the asserted type. -/
theorem c3_theorem_witness :
    ∃ d, validateTypeCast stId 10 (.keyword .number) (.keyword .number) =
        .ok (stId.simplify (stId.makeInstanceType (.keyword .number)), d) ∧
      (d = none ↔
        validateTypeCastInner stId 10 (.keyword .number)
            (stId.simplify (stId.makeInstanceType (.keyword .number))) = .ok ()) :=
  c3_theorem stId 10 (.keyword .number) (.keyword .number) (.keyword .number) rfl
    (fun h => nomatch h)

/-- An analyzer whose extends relation is constantly true while the general
assignability engine always declines. -/
def stExtTrue : Analyzer :=
  ⟨.ok, .ok, .ok, fun _ _ _ => .error (.external 1), fun _ _ => some true,
    fun _ => false, id, id⟩

/-- C4 counterexample: castable consults no extends relation; with an
extends oracle reporting true in both directions between interfaces A and B
and a declining assignability engine, castable(A, B) is false. -/
theorem c4_counterexample :
    castable stExtTrue CastableOpts.dflt 10 (.interface "A") (.interface "B") = .ok false ∧
    stExtTrue.extendsRel (.interface "A") (.interface "B") = some true ∧
    stExtTrue.extendsRel (.interface "B") (.interface "A") = some true := ⟨rfl, rfl, rfl⟩

/-- C4 amended: the bidirectional extends check lives in
validateTypeCastInner, not in castable: for interface operands the inner
check accepts as soon as the Extends Relation affirms either direction,
while castable on two distinct interfaces returns exactly the verdict of the
for-castability assignability fallback. -/
theorem c4_theorem :
    (∀ (st : Analyzer) (fuel : Nat) (a b : String),
        (st.extendsRel (.interface a) (.interface b) = some true ∨
         st.extendsRel (.interface b) (.interface a) = some true) →
        validateTypeCastInner st (fuel + 1) (.interface a) (.interface b) = .ok ()) ∧
    (∀ (st : Analyzer) (opts : CastableOpts) (fuel : Nat) (a b : String),
        a ≠ b →
        castable st opts (fuel + 1) (.interface a) (.interface b) =
          (if (st.assign (castOptsToAssignOpts opts) (.interface a) (.interface b)).isOk
           then .ok true else .ok false)) := by
  constructor
  · intro st fuel a b hext
    have step : validateTypeCastInner st (fuel + 1) (.interface a) (.interface b) =
        innerFinal st fuel (.interface a) (.interface b) := by
      simp only [validateTypeCastInner]
      rw [show (isStrOrUnion (.interface a) && Ty.isStr (.interface b)) = false from rfl]
      simp
    rw [step, innerFinal]
    rcases hext with hl | hr
    · rw [hl]; simp
    · by_cases hf : st.extendsRel (.interface a) (.interface b) = some true
      · rw [hf]; simp
      · rw [hr]; simp [hf]
  · intro st opts fuel a b hab
    have h2 : typeEq (.interface a) (.interface b) = false := by
      have hh : typeEq (.interface a) (.interface b) = (a == b) := rfl
      rw [hh]
      exact beq_eq_false_iff_ne.mpr hab
    simp only [castable]
    rw [show ((Ty.interface a).isAny || (Ty.interface a).isKwd .null ||
        (Ty.interface a).isKwd .undefined) = false from rfl]
    rw [h2]
    rw [show litToKeywordOk (.interface a) (.interface b) = false from rfl]
    rw [show litLitVeto (.interface a) (.interface b) = false from rfl]
    rw [show (Ty.interface a).isFnType = false from rfl]
    simp only [Bool.false_and, Bool.and_false]
    simp
    rw [show (Ty.interface a).isNum = false from rfl,
        show (Ty.interface a).isClass = false from rfl]
    simp

/-- C4 witness: with the constant-true extends oracle the inner check
accepts the interface pair, and castable under a declining assignability
engine computes false for distinct interfaces. -/
theorem c4_theorem_witness :
    validateTypeCastInner stExtTrue 10 (.interface "A") (.interface "B") = .ok () ∧
    castable stExtTrue CastableOpts.dflt 10 (.interface "A") (.interface "B") =
      (if (stExtTrue.assign (castOptsToAssignOpts CastableOpts.dflt)
            (.interface "A") (.interface "B")).isOk
       then .ok true else .ok false) :=
  ⟨c4_theorem.1 stExtTrue 9 "A" "B" (Or.inl rfl),
   c4_theorem.2 stExtTrue CastableOpts.dflt 9 "A" "B" (by decide)⟩

/-- An analyzer whose Ref expansion fails (an unresolvable reference). -/
def stRefFail : Analyzer :=
  ⟨.ok, .ok, fun _ => .error (.external 2), fun _ _ _ => .ok (),
    fun _ _ => none, fun _ => false, id, id⟩

/-- An unlabelled tuple element of number keyword type. -/
def numEl : TupleElem := .mk none (.keyword .number)

/-- When every per-position result is an acceptance the elementwise scan
reports all castable. -/
theorem firstFail_all_ok :
    ∀ rs : List (Except Fault Unit), (∀ x ∈ rs, x = .ok ()) → firstFail rs = .ok true := by
  intro rs
  induction rs with
  | nil => intro _; rfl
  | cons x rest ih =>
      intro h
      have hx := h x (List.mem_cons_self x rest)
      subst hx
      simp only [firstFail]
      exact ih (fun y hy => h y (List.mem_cons_of_mem _ hy))

/-- Reduction of the inner check on two tuples of unequal arity: the arity
guard aborts at once with InvalidTupleCast. -/
theorem inner_tuple_arity (st : Analyzer) (fuel : Nat) (lts rts : List TupleElem)
    (h : lts.length ≠ rts.length) :
    validateTypeCastInner st (fuel + 1) (.tuple rts) (.tuple lts) =
      .error (.error .invalidTupleCast) := by
  simp only [validateTypeCastInner]
  rw [show (isStrOrUnion (.tuple rts) && Ty.isStr (.tuple lts)) = false from rfl]
  simp [h]

/-- Reduction of the inner check on two tuples of equal arity: the verdict
is decided by the elementwise scan, falling through to the terminal section
when a position fails softly. -/
theorem inner_tuple_elems (st : Analyzer) (fuel : Nat) (lts rts : List TupleElem)
    (hlen : lts.length = rts.length) :
    validateTypeCastInner st (fuel + 1) (.tuple rts) (.tuple lts) =
      (match firstFail ((lts.zip rts).map
          (fun p => validateTypeCastInner st fuel p.2.ty p.1.ty)) with
       | .ok true => .ok ()
       | .ok false => innerFinal st fuel (.tuple rts) (.tuple lts)
       | .error f => .error f) := by
  simp only [validateTypeCastInner]
  rw [show (isStrOrUnion (.tuple rts) && Ty.isStr (.tuple lts)) = false from rfl]
  simp [hlen]

/-- The original type fixture [number, string | number]. -/
def origTupleFixture : Ty :=
  .tuple [.mk none (.keyword .number),
          .mk none (.union [.keyword .string, .keyword .number])]

/-- The asserted type fixture [number, number]. -/
def castedTupleFixture : Ty :=
  .tuple [.mk none (.keyword .number), .mk none (.keyword .number)]

/-- C5: tuple-versus-tuple cast validity requires equal arity, failing with
InvalidTupleCast otherwise (distinct from NonOverlappingTypeCast); with
equal arity it accepts when every position passes the same-direction
recursive check; consequently casting [number, string|number] to
[number, number] succeeds through validateTypeCast, and a 3-element asserted
tuple against a 2-element original aborts with InvalidTupleCast. -/
theorem c5_theorem :
    (∀ (st : Analyzer) (fuel : Nat) (lts rts : List TupleElem),
        lts.length ≠ rts.length →
        validateTypeCastInner st (fuel + 1) (.tuple rts) (.tuple lts) =
          .error (.error .invalidTupleCast)) ∧
    (∀ (st : Analyzer) (fuel : Nat) (lts rts : List TupleElem),
        lts.length = rts.length →
        (∀ p ∈ lts.zip rts, validateTypeCastInner st fuel p.2.ty p.1.ty = .ok ()) →
        validateTypeCastInner st (fuel + 1) (.tuple rts) (.tuple lts) = .ok ()) ∧
    validateTypeCastInner stId 10 (.tuple [numEl, numEl])
        (.tuple [numEl, numEl, numEl]) = .error (.error .invalidTupleCast) ∧
    validateTypeCast stId 10 origTupleFixture castedTupleFixture =
      .ok (castedTupleFixture, none) := by
  refine ⟨inner_tuple_arity, ?_, rfl, rfl⟩
  intro st fuel lts rts hlen hall
  rw [inner_tuple_elems st fuel lts rts hlen]
  have hff : firstFail ((lts.zip rts).map
      (fun p => validateTypeCastInner st fuel p.2.ty p.1.ty)) = .ok true := by
    apply firstFail_all_ok
    intro x hx
    obtain ⟨p, hp, hpx⟩ := List.mem_map.mp hx
    rw [← hpx]
    exact hall p hp
  rw [hff]

/-- C5 witness: the arity guard and the elementwise acceptance at concrete
tuples. -/
theorem c5_theorem_witness :
    validateTypeCastInner stId 8 (.tuple [numEl])
        (.tuple [numEl, numEl]) = .error (.error .invalidTupleCast) ∧
    validateTypeCastInner stId 8 (.tuple [numEl]) (.tuple [numEl]) = .ok () := by
  constructor
  · exact c5_theorem.1 stId 7 [numEl, numEl] [numEl] (by decide)
  · refine c5_theorem.2.1 stId 7 [numEl] [numEl] rfl ?_
    intro p hp
    have : p = (numEl, numEl) := List.mem_singleton.mp hp
    subst this
    rfl

/-- C6 counterexample: on tuples of unequal arity the inner check aborts
with InvalidTupleCast even though a later accept-path (the castable
fallback, whose assignability oracle here accepts) would have accepted, so a
sub-check failure can abort the outer query before the paths are
exhausted. -/
theorem c6_counterexample :
    validateTypeCastInner stId 10 (.tuple [numEl, numEl])
        (.tuple [numEl, numEl, numEl]) = .error (.error .invalidTupleCast) ∧
    innerFinal stId 9 (.tuple [numEl, numEl])
        (.tuple [numEl, numEl, numEl]) = .ok () := ⟨rfl, rfl⟩

/-- C6 amended: accept-path failures fall through to later paths, with one
exception: the tuple arity guard aborts immediately with InvalidTupleCast.
A soft elementwise failure proceeds to the terminal extends-and-castable
section, and even a hard castable error is converted into the soft
NonOverlappingTypeCast diagnostic rather than aborting the query. -/
theorem c6_theorem :
    (∀ (st : Analyzer) (fuel : Nat) (lts rts : List TupleElem),
        lts.length = rts.length →
        firstFail ((lts.zip rts).map
          (fun p => validateTypeCastInner st fuel p.2.ty p.1.ty)) = .ok false →
        validateTypeCastInner st (fuel + 1) (.tuple rts) (.tuple lts) =
          innerFinal st fuel (.tuple rts) (.tuple lts)) ∧
    (∀ (st : Analyzer) (fuel : Nat) (orig casted : Ty) (e : Err),
        st.extendsRel orig casted ≠ some true →
        st.extendsRel casted orig ≠ some true →
        castable st CastableOpts.dflt fuel orig casted = .error e →
        innerFinal st fuel orig casted = .error (.error .nonOverlappingTypeCast)) ∧
    (∀ (st : Analyzer) (fuel : Nat) (lts rts : List TupleElem),
        lts.length ≠ rts.length →
        validateTypeCastInner st (fuel + 1) (.tuple rts) (.tuple lts) =
          .error (.error .invalidTupleCast)) := by
  refine ⟨?_, ?_, inner_tuple_arity⟩
  · intro st fuel lts rts hlen hff
    rw [inner_tuple_elems st fuel lts rts hlen, hff]
  · intro st fuel orig casted e h1 h2 hc
    simp only [innerFinal]
    rw [if_neg h1, if_neg h2, hc]

/-- C6 witness: a failing element falls through to the terminal section, and
a hard castable error surfaces as the soft diagnostic. -/
theorem c6_theorem_witness :
    validateTypeCastInner stId 8 (.tuple [.mk none (litNum 1)])
        (.tuple [.mk none (litNum 2)]) =
      innerFinal stId 7 (.tuple [.mk none (litNum 1)]) (.tuple [.mk none (litNum 2)]) ∧
    innerFinal stRefFail 5 (.ref "X") (.keyword .number) =
      .error (.error .nonOverlappingTypeCast) := by
  constructor
  · exact c6_theorem.1 stId 7 [.mk none (litNum 2)] [.mk none (litNum 1)] rfl rfl
  · exact c6_theorem.2.1 stRefFail 5 (.ref "X") (.keyword .number) (.external 2)
      (fun h => nomatch h) (fun h => nomatch h) rfl


/-- An analyzer whose normalize collaborator fails with the shape-mismatch
error. -/
def stNormFail : Analyzer :=
  ⟨fun _ => .error .simpleAssignFailed, .ok, .ok, fun _ _ _ => .ok (),
    fun _ _ => none, fun _ => false, id, id⟩

/-- C7 counterexample: a terminal append on an accumulator of unexpected
shape does produce the SimpleAssignFailed (ShapeMismatch) Result failure,
but assign_to_union swallows every flattening failure and returns None (not
applicable) instead of surfacing a Result failure to its caller. -/
theorem c7_counterexample :
    appendTupleElementToType stId 5 (.keyword .string) numEl =
      .error .simpleAssignFailed ∧
    flattenUnionsForAssignment stNormFail 10 tupAB12 = .error .simpleAssignFailed ∧
    assignToUnion stNormFail 10 AssignOpts.dflt (.keyword .number) tupAB12 = none :=
  ⟨rfl, rfl, rfl⟩

/-- C7 amended: a terminal append on an accumulator that is neither a Union
nor a Tuple fails with the ShapeMismatch error SimpleAssignFailed, and the
error propagates out of the flattening fold as a Result failure; but
assignToUnion catches every flattening failure and returns None, so its
caller falls back to ordinary assignability instead of handling the error;
no crash occurs. -/
theorem c7_theorem :
    (∀ (st : Analyzer) (fuel : Nat) (acc : Ty) (el : TupleElem),
        tupleExpansion st el = none →
        acc.isUnionType = false →
        acc.isTupleType = false →
        appendTupleElementToType st (fuel + 1) acc el = .error .simpleAssignFailed) ∧
    (∀ (st : Analyzer) (fuel : Nat) (opts : AssignOpts) (l r : Ty) (e : Err),
        flattenUnionsForAssignment st fuel r = .error e →
        assignToUnion st fuel opts l r = none) := by
  constructor
  · intro st fuel acc el hexp hU hT
    simp only [appendTupleElementToType, hexp]
    cases acc with
    | union ts => simp [Ty.isUnionType] at hU
    | tuple es => simp [Ty.isTupleType] at hT
    | keyword k => rfl
    | lit v => rfl
    | intersection ts => rfl
    | typeLit ms => rfl
    | array t => rfl
    | interface n => rfl
    | cls n => rfl
    | fn => rfl
    | ref n => rfl
  · intro st fuel opts l r e h
    simp only [assignToUnion, h]

/-- C7 witness: the shape-mismatch error at a keyword accumulator and the
swallowing of a failed flattening. -/
theorem c7_theorem_witness :
    appendTupleElementToType stId 5 (.keyword .number) numEl =
      .error .simpleAssignFailed ∧
    assignToUnion stNormFail 3 AssignOpts.dflt (.keyword .number) (.keyword .string) =
      none :=
  ⟨c7_theorem.1 stId 4 (.keyword .number) numEl rfl rfl rfl,
   c7_theorem.2 stNormFail 3 AssignOpts.dflt (.keyword .number) (.keyword .string)
     .simpleAssignFailed rfl⟩

/-- C8 counterexample: has_overlap is not symmetric when one direction of
castable errors: with a Ref whose expansion fails, hasOverlap(Ref X, any)
propagates the expansion error while hasOverlap(any, Ref X) short-circuits
to true before ever expanding the Ref. -/
theorem c8_counterexample :
    hasOverlap stRefFail CastableOpts.dflt 10 (.ref "X") (.keyword .any) =
      .error (.external 2) ∧
    hasOverlap stRefFail CastableOpts.dflt 10 (.keyword .any) (.ref "X") = .ok true :=
  ⟨rfl, rfl⟩

/-- C8 amended: has_overlap is symmetric whenever both directed castable
queries return a verdict (no error): structural equality is symmetric and
the two verdicts are combined by a commutative disjunction; asymmetry can
arise only through an error in one direction. -/
theorem c8_theorem :
    ∀ (st : Analyzer) (opts : CastableOpts) (fuel : Nat) (l r : Ty) (a b : Bool),
      castable st opts fuel l r = .ok a →
      castable st opts fuel r l = .ok b →
      hasOverlap st opts fuel l r = hasOverlap st opts fuel r l := by
  intro st opts fuel l r a b ha hb
  simp only [hasOverlap]
  rw [typeEq_comm r l]
  by_cases h : typeEq l r = true
  · rw [if_pos h, if_pos h]
  · rw [if_neg h, if_neg h, ha, hb]
    cases a <;> cases b <;> rfl

/-- C8 witness: symmetry at a pair on which both directions answer. -/
theorem c8_theorem_witness :
    hasOverlap stId CastableOpts.dflt 7 (.keyword .number) (.keyword .string) =
      hasOverlap stId CastableOpts.dflt 7 (.keyword .string) (.keyword .number) :=
  c8_theorem stId CastableOpts.dflt 7 (.keyword .number) (.keyword .string) true true
    rfl rfl

/-- C10: in the Array-casted versus Tuple-orig accept path the first tuple
element is read with no emptiness guard: with an empty original tuple the
rt elems index 0 access is out of bounds, so the embedded check reaches the
panic outcome; the rule carries the unstated precondition that the original
tuple is non-empty. -/
theorem c10_theorem :
    ∀ (st : Analyzer) (fuel : Nat) (t : Ty),
      validateTypeCastInner st (fuel + 1) (.tuple []) (.array t) = .error .panic := by
  intro st fuel t
  simp only [validateTypeCastInner]
  rw [show (isStrOrUnion (.tuple ([] : List TupleElem)) && Ty.isStr (.array t)) = false
    from rfl]
  simp

/-- The short-circuit disjunction with an exhausted tail is the head. -/
theorem orE_ok_false (x : Except Err Bool) : orE x (.ok false) = x := by
  cases x with
  | error e => rfl
  | ok b => cases b <;> rfl

/-- C9 counterexample: the union distribution laws break when a later member
query errors: with a Ref whose expansion fails, castable(any | number,
Ref X) expands the Ref side first and propagates the expansion error, while
the claimed disjunction castable(any, Ref X) or castable(number, Ref X)
short-circuits to true on the first member. -/
theorem c9_counterexample :
    castable stRefFail CastableOpts.dflt 10
        (.union [.keyword .any, .keyword .number]) (.ref "X") =
      .error (.external 2) ∧
    orE (castable stRefFail CastableOpts.dflt 10 (.keyword .any) (.ref "X"))
        (castable stRefFail CastableOpts.dflt 10 (.keyword .number) (.ref "X")) =
      .ok true := ⟨rfl, rfl⟩

/-- C9 amended: the distribution laws hold exactly where the union rules are
reached, with members checked in order at one greater recursion depth and
the short-circuit combining verdicts and propagating a member error: on the
from side whenever the union is not structurally equal to the target and the
target is not a Ref (a Ref target is expanded first); on the to side
whenever the source is not a Union, not a Ref, and not one of the trivially
accepted any, null or undefined keywords. -/
theorem c9_theorem :
    (∀ (st : Analyzer) (opts : CastableOpts) (fuel : Nat) (A B C : Ty),
        typeEq (.union [A, B]) C = false →
        C.isRef = false →
        castable st opts (fuel + 1) (.union [A, B]) C =
          orE (castable st opts fuel A C) (castable st opts fuel B C)) ∧
    (∀ (st : Analyzer) (opts : CastableOpts) (fuel : Nat) (A C D : Ty),
        (A.isAny || A.isKwd .null || A.isKwd .undefined) = false →
        A.isUnionType = false →
        A.isRef = false →
        castable st opts (fuel + 1) A (.union [C, D]) =
          orE (castable st opts fuel A C) (castable st opts fuel A D)) := by
  constructor
  · intro st opts fuel A B C hne hcref
    cases C with
    | ref name => simp [Ty.isRef] at hcref
    | union ts2 =>
        simp only [castable, hne]
        simp [Ty.isAny, Ty.isKwd, Ty.isFnType, litToKeywordOk, litLitVeto, anyE, orE_ok_false]
    | keyword k =>
        simp only [castable, hne]
        simp [Ty.isAny, Ty.isKwd, Ty.isFnType, litToKeywordOk, litLitVeto, anyE, orE_ok_false]
    | lit v =>
        simp only [castable, hne]
        simp [Ty.isAny, Ty.isKwd, Ty.isFnType, litToKeywordOk, litLitVeto, anyE, orE_ok_false]
    | intersection ts2 =>
        simp only [castable, hne]
        simp [Ty.isAny, Ty.isKwd, Ty.isFnType, litToKeywordOk, litLitVeto, anyE, orE_ok_false]
    | tuple es2 =>
        simp only [castable, hne]
        simp [Ty.isAny, Ty.isKwd, Ty.isFnType, litToKeywordOk, litLitVeto, anyE, orE_ok_false]
    | typeLit ms2 =>
        simp only [castable, hne]
        simp [Ty.isAny, Ty.isKwd, Ty.isFnType, litToKeywordOk, litLitVeto, anyE, orE_ok_false]
    | array t2 =>
        simp only [castable, hne]
        simp [Ty.isAny, Ty.isKwd, Ty.isFnType, litToKeywordOk, litLitVeto, anyE, orE_ok_false]
    | interface n2 =>
        simp only [castable, hne]
        simp [Ty.isAny, Ty.isKwd, Ty.isFnType, litToKeywordOk, litLitVeto, anyE, orE_ok_false]
    | cls n2 =>
        simp only [castable, hne]
        simp [Ty.isAny, Ty.isKwd, Ty.isFnType, litToKeywordOk, litLitVeto, anyE, orE_ok_false]
    | fn =>
        simp only [castable, hne]
        simp [Ty.isAny, Ty.isKwd, Ty.isFnType, litToKeywordOk, litLitVeto, anyE, orE_ok_false]
  · intro st opts fuel A C D htriv hU href
    cases A with
    | union ts2 => simp [Ty.isUnionType] at hU
    | ref name => simp [Ty.isRef] at href
    | intersection ts2 =>
        simp only [castable, htriv]
        simp [Ty.isAny, Ty.isKwd, Ty.isFnType, litToKeywordOk, litLitVeto, typeEq, tyBEq, anyE, orE_ok_false]
    | keyword k =>
        simp only [castable, htriv]
        simp [Ty.isAny, Ty.isKwd, Ty.isFnType, litToKeywordOk, litLitVeto, typeEq, tyBEq, anyE, orE_ok_false]
    | lit v =>
        simp only [castable, htriv]
        simp [Ty.isAny, Ty.isKwd, Ty.isFnType, litToKeywordOk, litLitVeto, typeEq, tyBEq, anyE, orE_ok_false]
    | tuple es2 =>
        simp only [castable, htriv]
        simp [Ty.isAny, Ty.isKwd, Ty.isFnType, litToKeywordOk, litLitVeto, typeEq, tyBEq, anyE, orE_ok_false]
    | typeLit ms2 =>
        simp only [castable, htriv]
        simp [Ty.isAny, Ty.isKwd, Ty.isFnType, litToKeywordOk, litLitVeto, typeEq, tyBEq, anyE, orE_ok_false]
    | array t2 =>
        simp only [castable, htriv]
        simp [Ty.isAny, Ty.isKwd, Ty.isFnType, litToKeywordOk, litLitVeto, typeEq, tyBEq, anyE, orE_ok_false]
    | interface n2 =>
        simp only [castable, htriv]
        simp [Ty.isAny, Ty.isKwd, Ty.isFnType, litToKeywordOk, litLitVeto, typeEq, tyBEq, anyE, orE_ok_false]
    | cls n2 =>
        simp only [castable, htriv]
        simp [Ty.isAny, Ty.isKwd, Ty.isFnType, litToKeywordOk, litLitVeto, typeEq, tyBEq, anyE, orE_ok_false]
    | fn =>
        simp only [castable, htriv]
        simp [Ty.isAny, Ty.isKwd, Ty.isFnType, litToKeywordOk, litLitVeto, typeEq, tyBEq, anyE, orE_ok_false]

/-- C9 witness: both distribution laws at concrete keyword members. -/
theorem c9_theorem_witness :
    castable stId CastableOpts.dflt 8
        (.union [.keyword .string, .keyword .number]) (.keyword .number) =
      orE (castable stId CastableOpts.dflt 7 (.keyword .string) (.keyword .number))
        (castable stId CastableOpts.dflt 7 (.keyword .number) (.keyword .number)) ∧
    castable stId CastableOpts.dflt 8 (.keyword .string)
        (.union [.keyword .string, .keyword .number]) =
      orE (castable stId CastableOpts.dflt 7 (.keyword .string) (.keyword .string))
        (castable stId CastableOpts.dflt 7 (.keyword .string) (.keyword .number)) :=
  ⟨c9_theorem.1 stId CastableOpts.dflt 7 (.keyword .string) (.keyword .number)
      (.keyword .number) rfl rfl,
   c9_theorem.2 stId CastableOpts.dflt 7 (.keyword .string) (.keyword .string)
      (.keyword .number) rfl rfl rfl⟩

end Stc